import Mathlib

/-!
Verification of the Study Analytics Aggregation Engine.

Shallow embedding of the analytics code from
`backend/apis/analytics/lambda/src/services/analytics_service.py`,
`backend/apis/analytics/lambda/src/services/dynamodb_service.py` and
`backend/src/services/analytics_service.py`.

Calendar dates are modelled as integer day numbers (ℤ), except where the
month arithmetic of `generate_monthly_trends` is itself under scrutiny, in
which case a proleptic-Gregorian day/civil conversion is embedded.
Durations are natural numbers of minutes; exact rational / real arithmetic
stands in for Python float arithmetic, and Python's `round(x, 1)`
(round-half-to-even at one decimal) is embedded as `round1`.
-/

/-- One study session, as produced by the source's session normalisation
(`StudySession` model): a calendar date (day number), an optional starting
hour (`start_time.hour`; `none` when the session has no `start_time`),
a duration in minutes and a subject. -/

structure StudySession where
  date : ℤ
  start_hour : Option ℕ
  duration : ℕ
  subject : String
deriving DecidableEq, Repr

/-- `sum(session.duration for session in sessions)`. -/

def totalDuration (sessions : List StudySession) : ℕ :=
  (sessions.map (fun s => s.duration)).sum

/-- Python's `round(x, 1)`: round to one decimal place, halves to even. -/

def round1 (q : ℚ) : ℚ :=
  let x := 10 * q
  let f : ℤ := ⌊x⌋
  let r := x - (f : ℚ)
  let n : ℤ :=
    if r < 1/2 then f
    else if 1/2 < r then f + 1
    else if Even f then f else f + 1
  (n : ℚ) / 10

/-- The list of calendar days `[first, first+1, ..., last]` traversed by the
source's `while current_date <= week_end` loops (empty when `last < first`). -/

def daysRange (first last : ℤ) : List ℤ :=
  (List.range (last - first + 1).toNat).map (fun (i : ℕ) => first + (i : ℤ))

/-- `DailySummary` as emitted by `_calculate_daily_summaries`. -/

structure DailySummary where
  date : ℤ
  total_duration : ℕ
  session_count : ℕ
  subjects : List String
  average_session_duration : ℚ
deriving DecidableEq, Repr

/-- `AnalyticsService._calculate_daily_summaries`: group the sessions by
date and emit one `DailySummary` per calendar day of `[week_start, week_end]`,
zero-filled on days without sessions; the average session duration is
`total / count` rounded to one decimal, `0` when the day has no session. -/

def calculate_daily_summaries (sessions : List StudySession)
    (week_start week_end : ℤ) : List DailySummary :=
  (daysRange week_start week_end).map (fun d =>
    let day_sessions := sessions.filter (fun s => s.date = d)
    let total := totalDuration day_sessions
    let count := day_sessions.length
    let subjects := (day_sessions.map (fun s => s.subject)).dedup
    let avg : ℚ := if 0 < count then round1 ((total : ℚ) / (count : ℚ)) else 0
    ⟨d, total, count, subjects, avg⟩)

/-- Result record of `_calculate_week_comparison` (the backend's
`_calculate_comparison_stats` computes the same four quantities). -/

structure ComparisonResult where
  duration_change : ℤ
  duration_change_percentage : ℚ
  session_change : ℤ
  trend : String
deriving DecidableEq, Repr

/-- `AnalyticsService._calculate_week_comparison`: duration and session-count
deltas between the two periods, percentage change guarded against a zero
previous total and rounded to one decimal, and the qualitative trend label. -/

def calculate_week_comparison (current previous : List StudySession) :
    ComparisonResult :=
  let current_duration : ℤ := totalDuration current
  let previous_duration : ℤ := totalDuration previous
  let duration_change := current_duration - previous_duration
  let session_change : ℤ := (current.length : ℤ) - (previous.length : ℤ)
  let duration_change_pct : ℚ :=
    if 0 < previous_duration then
      (duration_change : ℚ) / (previous_duration : ℚ) * 100
    else 0
  { duration_change := duration_change
    duration_change_percentage := round1 duration_change_pct
    session_change := session_change
    trend :=
      if 0 < duration_change then "improving"
      else if duration_change < 0 then "declining"
      else "stable" }

/-! ### Streak computations

`DynamoDBService.get_study_streak_data` and
`AnalyticsService._calculate_streaks` both operate on the set of distinct
study dates.  Their backward `while check_date in study_dates` walks are
embedded as `countBack`, a fuel-based recursion whose fuel
`dates.card + 1` provably never runs out. -/

/-- Fuel-indexed backward walk: counts consecutive days `d, d-1, d-2, ...`
that belong to `dates`, stopping at the first absent day or when the fuel
runs out. -/

def countBackFuel (dates : Finset ℤ) : ℕ → ℤ → ℕ
  | 0, _ => 0
  | fuel + 1, d => if d ∈ dates then countBackFuel dates fuel (d - 1) + 1 else 0

/-- The `while check_date in study_dates: streak += 1; check_date -= 1` loop:
number of consecutive study dates walking backward from `d` inclusive. -/

def countBack (dates : Finset ℤ) (d : ℤ) : ℕ :=
  countBackFuel dates (dates.card + 1) d

/-- `DynamoDBService.get_study_streak_data`, current streak: strict backward
walk from the reference date `today` (`check_date = end_date` initially). -/

def get_streak_current (dates : Finset ℤ) (today : ℤ) : ℕ :=
  countBack dates today

/-- One iteration of the `for i in range(90)` longest-streak scan of
`get_study_streak_data`: on a hit the running streak grows and the maximum
is updated, on a miss the running streak resets to 0. -/

def streakScanStep (dates : Finset ℤ) (today : ℤ) (st : ℕ × ℕ) (i : ℕ) :
    ℕ × ℕ :=
  if today - (i : ℤ) ∈ dates then (max st.1 (st.2 + 1), st.2 + 1)
  else (st.1, 0)

/-- `DynamoDBService.get_study_streak_data`, longest streak: scan the 90 days
`today - i` for `i = 0, ..., 89` with a running streak and a maximum. -/

def get_streak_longest (dates : Finset ℤ) (today : ℤ) : ℕ :=
  ((List.range 90).foldl (streakScanStep dates today) (0, 0)).1

/-- `AnalyticsService._calculate_streaks`, current streak: if today or
yesterday is a study date, start at 1 and add the backward walk from
yesterday (the grace-day variant). -/

def calculate_streaks_current (dates : Finset ℤ) (today : ℤ) : ℕ :=
  if today ∈ dates ∨ today - 1 ∈ dates then 1 + countBack dates (today - 1)
  else 0

/-- The `for i in range(1, len(study_dates))` loop of `_calculate_streaks`:
walk the ascending sorted date list, growing `temp` on a one-day step and
folding it into `longest` otherwise; the final `temp` is folded in at the
end. -/

def calculate_streaks_longest_aux : List ℤ → ℤ → ℕ → ℕ → ℕ
  | [], _, temp, best => max best temp
  | d :: rest, prev, temp, best =>
    if d - prev = 1 then calculate_streaks_longest_aux rest d (temp + 1) best
    else calculate_streaks_longest_aux rest d 1 (max best temp)

/-- `AnalyticsService._calculate_streaks`, longest streak: maximal run of
consecutive dates in the ascending sorted list of distinct study dates
(0 for no dates, `temp` starting at 1 on the first date). -/

def calculate_streaks_longest (dates : Finset ℤ) : ℕ :=
  match dates.sort (· ≤ ·) with
  | [] => 0
  | d :: rest => calculate_streaks_longest_aux rest d 1 0

/-! ### Productivity metrics (C6, C8)

Python's `defaultdict(int)` keyed by hour is embedded as an association
list in key-insertion order: `bumpHour` adds to an existing entry in place
or appends a new key at the end, exactly as dict insertion order does.
`sorted(d, key=d.get, reverse=True)` is Python's stable sort of the keys,
descending by value: embedded as `List.mergeSort` (a stable sort) of the
entries with comparison `b.2 ≤ a.2`. -/

def bumpHour : List (ℕ × ℕ) → ℕ → ℕ → List (ℕ × ℕ)
  | [], h, v => [(h, v)]
  | (k, w) :: rest, h, v =>
    if k = h then (k, w + v) :: rest else (k, w) :: bumpHour rest h v

/-- The `hourly_productivity[hour] += session.duration` accumulation of
`generate_productivity_metrics` (sessions without a `start_time` skipped). -/

def hourly_productivity (sessions : List StudySession) : List (ℕ × ℕ) :=
  sessions.foldl (fun acc s =>
    match s.start_hour with
    | some h => bumpHour acc h s.duration
    | none => acc) []

/-- `peak_hours = sorted(hourly_productivity, key=..., reverse=True)[:3]`. -/

def peak_hours (sessions : List StudySession) : List ℕ :=
  (((hourly_productivity sessions).mergeSort
      (fun a b => b.2 ≤ a.2)).take 3).map (fun p => p.1)

/-- Total duration of the sessions starting in hour `h`. -/

def hour_total (sessions : List StudySession) (h : ℕ) : ℕ :=
  totalDuration (sessions.filter (fun s => s.start_hour = some h))

/-- `optimal_session_length`: lower median of the sorted durations, `0` for
no sessions. -/

def optimal_session_length (sessions : List StudySession) : ℕ :=
  let ds := (sessions.map (fun s => s.duration)).mergeSort (fun a b => a ≤ b)
  if ds.length = 0 then 0 else ds.getD (ds.length / 2) 0

/-- `focus_score = round(min(100, avg_duration / 45 * 100), 1)`, `0` with no
sessions. -/

def focus_score (sessions : List StudySession) : ℚ :=
  if sessions.length = 0 then 0
  else
    let avg : ℚ := (totalDuration sessions : ℚ) / (sessions.length : ℚ)
    round1 (min 100 (avg / 45 * 100))

def lookupHour : List (ℕ × ℕ) → ℕ → ℕ
  | [], _ => 0
  | (k, v) :: rest, h => if k = h then v else lookupHour rest h

def hourKeys (l : List (ℕ × ℕ)) : List ℕ := l.map (fun p => p.1)

/-! ### Study consistency score (C2)

`_calculate_study_consistency` mixes rational arithmetic with a square
root (`variance ** 0.5`), so it is embedded over ℝ; `Real.sqrt` stands in
for the float power, which is why these two definitions are the only
noncomputable ones in this development. -/

/-- `AnalyticsService._calculate_study_consistency`, translated clause by
clause from the code: base consistency plus a stability bonus from the
coefficient of variation of the nonzero daily durations, capped at 100. -/

noncomputable def calculate_study_consistency (ds : List DailySummary) : ℝ :=
  let study_days := (ds.filter (fun s => 0 < s.total_duration)).length
  let total_days := ds.length
  if total_days = 0 then 0
  else
    let base_consistency : ℝ := ((study_days : ℝ) / (total_days : ℝ)) * 100
    let durations := (ds.filter (fun s => 0 < s.total_duration)).map
      (fun s => (s.total_duration : ℝ))
    let stability_bonus : ℝ :=
      if 1 < durations.length then
        let avg := durations.sum / (durations.length : ℝ)
        let variance := ((durations.map (fun d => (d - avg) ^ 2)).sum)
          / (durations.length : ℝ)
        let cv := if 0 < avg then Real.sqrt variance / avg else 0
        if cv < 0.5 then max 0 ((0.5 - cv) * 20) else 0
      else 0
    min 100 (base_consistency + stability_bonus)

/-- The consistency formula exactly as claim C2 words it: `study_days`
counts days with positive total, `cv` is the population standard deviation
over the mean of the nonzero durations (no positivity guard), the bonus is
`max(0, (0.5 - cv) * 20)` when more than one nonzero duration exists and
`cv < 0.5` and 0 otherwise, and the result is
`min(100, (study_days / N) * 100 + bonus)`, with 0 when `N = 0`. -/

noncomputable def spec_study_consistency (ds : List DailySummary) : ℝ :=
  let N := ds.length
  let study_days := (ds.filter (fun s => 0 < s.total_duration)).length
  let nonzero := (ds.filter (fun s => 0 < s.total_duration)).map
    (fun s => (s.total_duration : ℝ))
  let mean := nonzero.sum / (nonzero.length : ℝ)
  let variance := ((nonzero.map (fun d => (d - mean) ^ 2)).sum)
    / (nonzero.length : ℝ)
  let cv := Real.sqrt variance / mean
  let stability_bonus : ℝ :=
    if 1 < nonzero.length ∧ cv < 0.5 then max 0 ((0.5 - cv) * 20) else 0
  if N = 0 then 0
  else min 100 (((study_days : ℝ) / (N : ℝ)) * 100 + stability_bonus)

/-! ### Top subjects and the empty-input scenario (C8) -/

structure SubjectStat where
  subject : String
  duration : ℕ
  sessions : ℕ
  percentage : ℚ
deriving DecidableEq, Repr

def bumpSubject : List (String × ℕ × ℕ) → String → ℕ → List (String × ℕ × ℕ)
  | [], subj, v => [(subj, v, 1)]
  | (k, d, c) :: rest, subj, v =>
    if k = subj then (k, d + v, c + 1) :: rest
    else (k, d, c) :: bumpSubject rest subj v

/-- The `subject_data[subject]["duration"/"sessions"]` accumulation of
`_calculate_top_subjects`, in dict insertion order. -/

def subject_data (sessions : List StudySession) : List (String × ℕ × ℕ) :=
  sessions.foldl (fun acc s => bumpSubject acc s.subject s.duration) []

/-- `AnalyticsService._calculate_top_subjects`: duration-weighted
percentages (guarded against a zero total, rounded to one decimal), sorted
descending by duration, top 5. -/

def calculate_top_subjects (sessions : List StudySession) : List SubjectStat :=
  let data := subject_data sessions
  let total := (data.map (fun p => p.2.1)).sum
  let items := data.map (fun p =>
    let pct : ℚ := if 0 < total then (p.2.1 : ℚ) / (total : ℚ) * 100 else 0
    (⟨p.1, p.2.1, p.2.2, round1 pct⟩ : SubjectStat))
  (items.mergeSort (fun a b => b.duration ≤ a.duration)).take 5

/-! ### Monthly trend buckets (C5)

`generate_monthly_trends` manipulates real calendar dates
(`date.replace(day=1)`, `timedelta(days=32 * i)`), so the proleptic
Gregorian calendar is embedded through the standard day-number/civil
conversion pair. -/

/-- Day number (days since 1970-01-01) of a proleptic-Gregorian civil date,
the inverse of `civilFromDays`. -/

def daysFromCivil (y m d : ℤ) : ℤ :=
  let y' := if m ≤ 2 then y - 1 else y
  let era := Int.fdiv y' 400
  let yoe := y' - era * 400
  let mp := (m + 9) % 12
  let doy := Int.fdiv (153 * mp + 2) 5 + d - 1
  let doe := yoe * 365 + Int.fdiv yoe 4 - Int.fdiv yoe 100 + doy
  era * 146097 + doe - 719468

/-- Civil date `(year, month, day)` of a day number. -/

def civilFromDays (z : ℤ) : ℤ × ℤ × ℤ :=
  let z' := z + 719468
  let era := Int.fdiv z' 146097
  let doe := z' - era * 146097
  let yoe := Int.fdiv
    (doe - Int.fdiv doe 1460 + Int.fdiv doe 36524 - Int.fdiv doe 146096) 365
  let y := yoe + era * 400
  let doy := doe - (365 * yoe + Int.fdiv yoe 4 - Int.fdiv yoe 100)
  let mp := Int.fdiv (5 * doy + 2) 153
  let d := doy - Int.fdiv (153 * mp + 2) 5 + 1
  let m := if mp < 10 then mp + 3 else mp - 9
  (if m ≤ 2 then y + 1 else y, m, d)

/-- The `(year, month)` of each bucket produced by
`AnalyticsService.generate_monthly_trends` for a given "today":
`end_date = today.replace(day=1)`, and for each `i in range(months_back)`
the bucket month is `(end_date - timedelta(days=32 * i)).replace(day=1)`. -/

def generate_monthly_trends_months (todayY todayM _todayD : ℤ)
    (months_back : ℕ) : List (ℤ × ℤ) :=
  let end_date := daysFromCivil todayY todayM 1
  (List.range months_back).map (fun (i : ℕ) =>
    let ms := civilFromDays (end_date - 32 * (i : ℤ))
    (ms.1, ms.2.1))

/-! ### Collaborator failure handling (C9) -/

/-- Model of a storage-layer failure (`botocore ClientError`). -/

structure DBError where
  message : String
deriving DecidableEq, Repr

/-- `DynamoDBService.get_study_sessions_by_date_range`: the entire body is
wrapped in `try ... except ClientError: print(...); return []`, so a
storage failure is returned as an empty session list. -/

def get_study_sessions_by_date_range
    (fetch : Except DBError (List StudySession)) : List StudySession :=
  match fetch with
  | Except.ok sessions => sessions
  | Except.error _ => []

/-- Result record of `get_study_streak_data`. -/

structure StreakData where
  current_streak : ℕ
  longest_streak : ℕ
  total_study_days : ℕ
deriving DecidableEq, Repr

/-- `DynamoDBService.get_study_streak_data`: computes the streaks from the
fetched 90-day window, but its `except Exception` arm converts any failure
into the all-zero record. -/

def get_study_streak_data (fetch : Except DBError (Finset ℤ)) (today : ℤ) :
    StreakData :=
  match fetch with
  | Except.ok dates =>
    ⟨get_streak_current dates today, get_streak_longest dates today,
      dates.card⟩
  | Except.error _ => ⟨0, 0, 0⟩

example : daysRange 0 6 = [0, 1, 2, 3, 4, 5, 6] := by decide

example : round1 (1/3 * 100) = 333/10 := by norm_num [round1]

example : round1 0 = 0 := by norm_num [round1]

example : round1 (1/4) = 2/10 := by norm_num [round1]

theorem countBackFuel_le (dates : Finset ℤ) :
    ∀ (fuel : ℕ) (d : ℤ), countBackFuel dates fuel d ≤ fuel := by
  intro fuel
  induction fuel with
  | zero => intro d; simp [countBackFuel]
  | succ n ih =>
    intro d
    simp only [countBackFuel]
    split
    · exact Nat.succ_le_succ (ih (d - 1))
    · exact Nat.zero_le _

theorem countBackFuel_mem (dates : Finset ℤ) :
    ∀ (fuel : ℕ) (d : ℤ) (i : ℕ), i < countBackFuel dates fuel d →
      d - (i : ℤ) ∈ dates := by
  intro fuel
  induction fuel with
  | zero => intro d i h; simp [countBackFuel] at h
  | succ n ih =>
    intro d i h
    simp only [countBackFuel] at h
    by_cases hd : d ∈ dates
    · simp only [hd, if_true] at h
      cases i with
      | zero => simpa using hd
      | succ j =>
        have hj : j < countBackFuel dates n (d - 1) := by omega
        have := ih (d - 1) j hj
        have heq : d - ((j : ℤ) + 1) = d - 1 - (j : ℤ) := by ring
        rw [show ((j + 1 : ℕ) : ℤ) = (j : ℤ) + 1 by push_cast; ring, heq]
        exact this
    · simp [hd] at h

theorem countBackFuel_stop (dates : Finset ℤ) :
    ∀ (fuel : ℕ) (d : ℤ), countBackFuel dates fuel d < fuel →
      d - (countBackFuel dates fuel d : ℤ) ∉ dates := by
  intro fuel
  induction fuel with
  | zero => intro d h; omega
  | succ n ih =>
    intro d h
    by_cases hd : d ∈ dates
    · simp only [countBackFuel, hd, if_true] at h ⊢
      have hlt : countBackFuel dates n (d - 1) < n := by omega
      have := ih (d - 1) hlt
      have heq : d - ((countBackFuel dates n (d - 1) : ℤ) + 1)
          = d - 1 - (countBackFuel dates n (d - 1) : ℤ) := by ring
      rw [show ((countBackFuel dates n (d - 1) + 1 : ℕ) : ℤ)
          = (countBackFuel dates n (d - 1) : ℤ) + 1 by push_cast; ring, heq]
      exact this
    · simp [countBackFuel, hd]

theorem countBackFuel_card (dates : Finset ℤ) (fuel : ℕ) (d : ℤ) :
    countBackFuel dates fuel d ≤ dates.card := by
  classical
  have h := Finset.card_le_card_of_injOn (fun (i : ℕ) => d - (i : ℤ))
    (fun i hi => countBackFuel_mem dates fuel d i (Finset.mem_range.mp hi))
    (fun i hi j hj hij => by
      simp only [Finset.coe_range, Set.mem_Iio] at hi hj
      simp only at hij
      omega)
  simpa using h

theorem countBackFuel_stable (dates : Finset ℤ) :
    ∀ (fuel fuel' : ℕ) (d : ℤ), fuel ≤ fuel' →
      countBackFuel dates fuel d < fuel →
      countBackFuel dates fuel' d = countBackFuel dates fuel d := by
  intro fuel
  induction fuel with
  | zero => intro fuel' d _ h; omega
  | succ n ih =>
    intro fuel' d hle h
    obtain ⟨m, rfl⟩ : ∃ m, fuel' = m + 1 := ⟨fuel' - 1, by omega⟩
    by_cases hd : d ∈ dates
    · simp only [countBackFuel, hd, if_true] at h ⊢
      have hlt : countBackFuel dates n (d - 1) < n := by omega
      rw [ih m (d - 1) (by omega) hlt]
    · simp [countBackFuel, hd]

/-- `countBack` never exhausts its fuel. -/

theorem countBack_lt_fuel (dates : Finset ℤ) (d : ℤ) :
    countBack dates d < dates.card + 1 :=
  lt_of_le_of_lt (countBackFuel_card dates _ d) (Nat.lt_succ_self _)

/-- Every day visited by the backward walk is a study date. -/

theorem countBack_mem (dates : Finset ℤ) (d : ℤ) (i : ℕ)
    (h : i < countBack dates d) : d - (i : ℤ) ∈ dates :=
  countBackFuel_mem dates _ d i h

/-- The backward walk stops at the first absent day. -/

theorem countBack_stop (dates : Finset ℤ) (d : ℤ) :
    d - (countBack dates d : ℤ) ∉ dates :=
  countBackFuel_stop dates _ d (countBack_lt_fuel dates d)

theorem countBack_of_not_mem (dates : Finset ℤ) (d : ℤ) (h : d ∉ dates) :
    countBack dates d = 0 := by
  simp [countBack, countBackFuel, h]

theorem countBack_of_mem (dates : Finset ℤ) (d : ℤ) (h : d ∈ dates) :
    countBack dates d = countBack dates (d - 1) + 1 := by
  classical
  have hsub : countBackFuel dates dates.card (d - 1) < dates.card := by
    by_contra hge
    have hcard := countBackFuel_card dates dates.card (d - 1)
    have heq : countBackFuel dates dates.card (d - 1) = dates.card := by omega
    -- the walk from d-1 visits `card` distinct dates, all below d, yet d is
    -- also a date: that would force card+1 distinct members
    have hmaps : ∀ i ∈ Finset.range dates.card, d - 1 - (i : ℤ) ∈ dates := by
      intro i hi
      have hi' := Finset.mem_range.mp hi
      exact countBackFuel_mem dates dates.card (d - 1) i (by omega)
    have hsubset : insert d ((Finset.range dates.card).image
        (fun (i : ℕ) => d - 1 - (i : ℤ))) ⊆ dates := by
      intro x hx
      rcases Finset.mem_insert.mp hx with rfl | hx
      · exact h
      · obtain ⟨i, hi, rfl⟩ := Finset.mem_image.mp hx
        exact hmaps i hi
    have himg : ((Finset.range dates.card).image
        (fun (i : ℕ) => d - 1 - (i : ℤ))).card = dates.card := by
      rw [Finset.card_image_of_injOn, Finset.card_range]
      intro i hi j hj hij
      simp only [Finset.coe_range, Set.mem_Iio] at hi hj
      simp only at hij
      omega
    have hnotin : d ∉ (Finset.range dates.card).image
        (fun (i : ℕ) => d - 1 - (i : ℤ)) := by
      intro hx
      obtain ⟨i, _, hflip⟩ := Finset.mem_image.mp hx
      omega
    have hle := Finset.card_le_card hsubset
    rw [Finset.card_insert_of_not_mem hnotin, himg] at hle
    omega
  have hstable := countBackFuel_stable dates dates.card (dates.card + 1) (d - 1)
    (Nat.le_succ _) hsub
  show countBackFuel dates (dates.card + 1) d
      = countBackFuel dates (dates.card + 1) (d - 1) + 1
  rw [hstable]
  simp only [countBackFuel, h, if_true]

/-- Characterisation: the backward walk returns the unique `k` such that the
`k` days `d, d-1, ..., d-k+1` are all study dates and `d-k` is not. -/

theorem countBack_unique (dates : Finset ℤ) (d : ℤ) (k : ℕ)
    (hmem : ∀ i : ℕ, i < k → d - (i : ℤ) ∈ dates)
    (hstop : d - (k : ℤ) ∉ dates) : countBack dates d = k := by
  rcases Nat.lt_trichotomy (countBack dates d) k with h | h | h
  · exact absurd (hmem _ h) (countBack_stop dates d)
  · exact h
  · exact absurd (countBack_mem dates d k h) hstop

example : countBack ({-1, -2} : Finset ℤ) 0 = 0 := by decide

example : countBack ({0, -1, -3} : Finset ℤ) 0 = 2 := by decide

example : get_streak_current ({0, -1, -3} : Finset ℤ) 0 = 2 := by decide

example : calculate_streaks_current ({-1} : Finset ℤ) 0 = 2 := by decide

example : calculate_streaks_longest ({-1} : Finset ℤ) = 1 := by
  simp [calculate_streaks_longest, Finset.sort_singleton,
    calculate_streaks_longest_aux]

example : get_streak_longest ({0, -1, -3} : Finset ℤ) 0 = 2 := by decide

theorem streakScanStep_fst_le (dates : Finset ℤ) (today : ℤ) (st : ℕ × ℕ)
    (i : ℕ) : st.1 ≤ (streakScanStep dates today st i).1 := by
  unfold streakScanStep
  split
  · exact le_max_left _ _
  · exact le_refl _

theorem streakScan_foldl_fst_le (dates : Finset ℤ) (today : ℤ) :
    ∀ (l : List ℕ) (st : ℕ × ℕ),
      st.1 ≤ (l.foldl (streakScanStep dates today) st).1 := by
  intro l
  induction l with
  | nil => intro st; simp
  | cons i rest ih =>
    intro st
    simp only [List.foldl_cons]
    exact le_trans (streakScanStep_fst_le dates today st i) (ih _)

theorem streakScan_foldl_bound (dates : Finset ℤ) (today : ℤ) :
    ∀ (l : List ℕ) (st : ℕ × ℕ),
      (l.foldl (streakScanStep dates today) st).1 ≤ max st.1 (st.2 + l.length)
      ∧ (l.foldl (streakScanStep dates today) st).2 ≤ st.2 + l.length := by
  intro l
  induction l with
  | nil => intro st; simp
  | cons i rest ih =>
    intro st
    simp only [List.foldl_cons, List.length_cons]
    have h := ih (streakScanStep dates today st i)
    by_cases hm : today - (i : ℤ) ∈ dates
    · simp only [streakScanStep, hm, if_true] at h ⊢
      omega
    · simp only [streakScanStep, hm, if_false] at h ⊢
      omega

/-- The longest-streak scan of `get_study_streak_data` covers only 90 days,
so its result is at most 90. -/

theorem get_streak_longest_le (dates : Finset ℤ) (today : ℤ) :
    get_streak_longest dates today ≤ 90 := by
  have h := (streakScan_foldl_bound dates today (List.range 90) (0, 0)).1
  simpa [get_streak_longest] using h

theorem streakScan_allhits (dates : Finset ℤ) (today : ℤ) :
    ∀ k : ℕ, (∀ i : ℕ, i < k → today - (i : ℤ) ∈ dates) →
      (List.range k).foldl (streakScanStep dates today) (0, 0) = (k, k) := by
  intro k
  induction k with
  | zero => intro _; simp
  | succ n ih =>
    intro h
    rw [List.range_succ, List.foldl_append]
    rw [ih (fun i hi => h i (Nat.lt_succ_of_lt hi))]
    simp only [List.foldl_cons, List.foldl_nil, streakScanStep,
      h n (Nat.lt_succ_self n), if_true]
    simp

theorem streakScan_range_mono (dates : Finset ℤ) (today : ℤ) :
    ∀ m n : ℕ, m ≤ n →
      ((List.range m).foldl (streakScanStep dates today) (0, 0)).1
        ≤ ((List.range n).foldl (streakScanStep dates today) (0, 0)).1 := by
  intro m n hmn
  induction n with
  | zero => simp [Nat.le_zero.mp hmn]
  | succ k ih =>
    rcases Nat.lt_or_ge m (k + 1) with h | h
    · refine le_trans (ih (by omega)) ?_
      rw [List.range_succ, List.foldl_append]
      simp only [List.foldl_cons, List.foldl_nil]
      exact streakScanStep_fst_le dates today _ k
    · have : m = k + 1 := by omega
      subst this
      exact le_refl _

/-- If the `k` most recent days (`k ≤ 90`) are all study dates, the
longest-streak scan finds a run of length at least `k`. -/

theorem get_streak_longest_lb (dates : Finset ℤ) (today : ℤ) (k : ℕ)
    (hk : k ≤ 90) (h : ∀ i : ℕ, i < k → today - (i : ℤ) ∈ dates) :
    k ≤ get_streak_longest dates today := by
  have h1 := streakScan_allhits dates today k h
  have h2 := streakScan_range_mono dates today k 90 hk
  rw [h1] at h2
  exact h2

theorem csl_aux_ge_best :
    ∀ (rest : List ℤ) (prev : ℤ) (temp best : ℕ),
      best ≤ calculate_streaks_longest_aux rest prev temp best := by
  intro rest
  induction rest with
  | nil => intro prev temp best; exact le_max_left _ _
  | cons d rest ih =>
    intro prev temp best
    simp only [calculate_streaks_longest_aux]
    split
    · exact ih _ _ _
    · exact le_trans (le_max_left best temp) (ih _ _ _)

theorem csl_aux_ge_temp :
    ∀ (rest : List ℤ) (prev : ℤ) (temp best : ℕ),
      temp ≤ calculate_streaks_longest_aux rest prev temp best := by
  intro rest
  induction rest with
  | nil => intro prev temp best; exact le_max_right _ _
  | cons d rest ih =>
    intro prev temp best
    simp only [calculate_streaks_longest_aux]
    split
    · exact le_trans (Nat.le_succ temp) (ih _ _ _)
    · exact le_trans (le_max_right best temp) (csl_aux_ge_best _ _ _ _)

/-- Walking the sorted suffix `prev :: rest` of the study-date list with a
running streak `temp` that dominates the backward walk from `prev`, the
final longest value dominates the backward walk from every listed date. -/

theorem csl_aux_lb (dates : Finset ℤ) :
    ∀ (rest : List ℤ) (prev : ℤ) (temp best : ℕ),
      List.Sorted (· < ·) (prev :: rest) →
      (∀ x ∈ prev :: rest, x ∈ dates) →
      (∀ x ∈ dates, prev < x → x ∈ rest) →
      countBack dates prev ≤ temp →
      ∀ e ∈ prev :: rest,
        countBack dates e ≤ calculate_streaks_longest_aux rest prev temp best := by
  intro rest
  induction rest with
  | nil =>
    intro prev temp best _ _ _ htemp e he
    simp only [List.mem_singleton] at he
    subst he
    simpa [calculate_streaks_longest_aux] using
      le_trans htemp (le_max_right best temp)
  | cons d rest ih =>
    intro prev temp best hsorted hmem hcompl htemp e he
    have hpd : prev < d := (List.sorted_cons.mp hsorted).1 d (by simp)
    have hsorted' : List.Sorted (· < ·) (d :: rest) :=
      (List.sorted_cons.mp hsorted).2
    have hmem' : ∀ x ∈ d :: rest, x ∈ dates := by
      intro x hx
      exact hmem x (List.mem_cons_of_mem _ hx)
    have hcompl' : ∀ x ∈ dates, d < x → x ∈ rest := by
      intro x hx hdx
      have := hcompl x hx (lt_trans hpd hdx)
      rcases List.mem_cons.mp this with rfl | h
      · omega
      · exact h
    have hdmem : d ∈ dates := hmem d (by simp)
    by_cases hstep : d - prev = 1
    · -- consecutive dates: the running streak extends
      have hprev_eq : d - 1 = prev := by omega
      have hcb : countBack dates d ≤ temp + 1 := by
        rw [countBack_of_mem dates d hdmem, hprev_eq]
        omega
      simp only [calculate_streaks_longest_aux, hstep, if_true]
      rcases List.mem_cons.mp he with rfl | he'
      · exact le_trans htemp (le_trans (Nat.le_succ temp)
          (csl_aux_ge_temp rest d (temp + 1) best))
      · exact ih d (temp + 1) best hsorted' hmem' hcompl' hcb e he'
    · -- gap: the running streak restarts at 1
      have hgap : d - 1 ∉ dates := by
        intro hcon
        have hlt : prev < d - 1 := by omega
        have := hcompl (d - 1) hcon (by omega)
        rcases List.mem_cons.mp this with h1 | h1
        · omega
        · have := (List.sorted_cons.mp hsorted').1 (d - 1) h1
          omega
      have hcb : countBack dates d ≤ 1 := by
        rw [countBack_of_mem dates d hdmem,
          countBack_of_not_mem dates (d - 1) hgap]
      simp only [calculate_streaks_longest_aux, hstep, if_false]
      rcases List.mem_cons.mp he with rfl | he'
      · exact le_trans htemp (le_trans (le_max_right best temp)
          (csl_aux_ge_best rest d 1 (max best temp)))
      · exact ih d 1 (max best temp) hsorted' hmem' hcompl' hcb e he'

/-- The longest streak reported by `_calculate_streaks` dominates the
backward consecutive-day walk from any study date. -/

theorem countBack_le_calculate_streaks_longest (dates : Finset ℤ) (d : ℤ)
    (hd : d ∈ dates) : countBack dates d ≤ calculate_streaks_longest dates := by
  classical
  rcases hsort : dates.sort (· ≤ ·) with _ | ⟨d0, rest⟩
  · exfalso
    have : d ∈ dates.sort (· ≤ ·) := (Finset.mem_sort _).mpr hd
    rw [hsort] at this
    simp at this
  · have hsorted : List.Sorted (· < ·) (d0 :: rest) := by
      have := Finset.sort_sorted_lt dates
      rwa [hsort] at this
    have hmem : ∀ x ∈ d0 :: rest, x ∈ dates := by
      intro x hx
      have : x ∈ dates.sort (· ≤ ·) := by rw [hsort]; exact hx
      exact (Finset.mem_sort _).mp this
    have hcompl : ∀ x ∈ dates, d0 < x → x ∈ rest := by
      intro x hx hlt
      have : x ∈ dates.sort (· ≤ ·) := (Finset.mem_sort _).mpr hx
      rw [hsort] at this
      rcases List.mem_cons.mp this with rfl | h
      · omega
      · exact h
    have hd0 : countBack dates d0 ≤ 1 := by
      have hd0mem : d0 ∈ dates := hmem d0 (by simp)
      have hgap : d0 - 1 ∉ dates := by
        intro hcon
        have hmem2 : d0 - 1 ∈ d0 :: rest := by
          have : d0 - 1 ∈ dates.sort (· ≤ ·) := (Finset.mem_sort _).mpr hcon
          rwa [hsort] at this
        rcases List.mem_cons.mp hmem2 with h1 | h1
        · omega
        · have := (List.sorted_cons.mp hsorted).1 (d0 - 1) h1
          omega
      rw [countBack_of_mem dates d0 hd0mem,
        countBack_of_not_mem dates (d0 - 1) hgap]
    have hdl : d ∈ d0 :: rest := by
      have : d ∈ dates.sort (· ≤ ·) := (Finset.mem_sort _).mpr hd
      rwa [hsort] at this
    have := csl_aux_lb dates rest d0 1 0 hsorted hmem hcompl hd0 d hdl
    simpa [calculate_streaks_longest, hsort] using this

/-- `_calculate_streaks` satisfies `current ≤ longest + 1`. -/

theorem calculate_streaks_current_le (dates : Finset ℤ) (today : ℤ) :
    calculate_streaks_current dates today
      ≤ calculate_streaks_longest dates + 1 := by
  unfold calculate_streaks_current
  split
  · by_cases hy : today - 1 ∈ dates
    · have := countBack_le_calculate_streaks_longest dates (today - 1) hy
      omega
    · rw [countBack_of_not_mem dates (today - 1) hy]
      omega
  · omega

theorem countBack_le_card (dates : Finset ℤ) (d : ℤ) :
    countBack dates d ≤ dates.card :=
  countBackFuel_card dates _ d

theorem card_le_91_of_subset_window (dates : Finset ℤ) (today : ℤ)
    (hsub : dates ⊆ Finset.Icc (today - 90) today) : dates.card ≤ 91 := by
  have h := Finset.card_le_card hsub
  rwa [Int.card_Icc, show today + 1 - (today - 90) = 91 by ring,
    show ((91 : ℤ)).toNat = 91 by rfl] at h

theorem get_streak_current_full_window (today : ℤ) :
    get_streak_current (Finset.Icc (today - 90) today) today = 91 := by
  unfold get_streak_current
  apply countBack_unique
  · intro i hi
    rw [Finset.mem_Icc]
    omega
  · rw [Finset.mem_Icc]
    omega

theorem get_streak_longest_full_window (today : ℤ) :
    get_streak_longest (Finset.Icc (today - 90) today) today = 90 := by
  refine le_antisymm (get_streak_longest_le _ _) ?_
  apply get_streak_longest_lb _ _ 90 (le_refl _)
  intro i hi
  rw [Finset.mem_Icc]
  omega

theorem get_streak_current_le_longest_succ (dates : Finset ℤ) (today : ℤ)
    (hsub : dates ⊆ Finset.Icc (today - 90) today) :
    get_streak_current dates today ≤ get_streak_longest dates today + 1 := by
  have hc91 : countBack dates today ≤ 91 :=
    le_trans (countBack_le_card dates today)
      (card_le_91_of_subset_window dates today hsub)
  unfold get_streak_current
  by_cases hc : countBack dates today ≤ 90
  · have hlb := get_streak_longest_lb dates today (countBack dates today) hc
      (fun i hi => countBack_mem dates today i hi)
    omega
  · have hlb := get_streak_longest_lb dates today 90 (le_refl _)
      (fun i hi => countBack_mem dates today i (by omega))
    omega

/-- Claim C3: the strict backward-walk contract holds for
`get_study_streak_data` — the walk visits exactly the consecutive study
dates ending at `today` and returns 0 when `today` has no session — and
`_calculate_streaks` agrees with it whenever `today` is a study date, but
grants a grace day: it returns a positive current streak when `today` is
absent and `today - 1` is a study date. -/

theorem streak_current_strict_vs_grace (dates : Finset ℤ) (today : ℤ) :
    (today ∉ dates → get_streak_current dates today = 0) ∧
    (∀ i : ℕ, i < get_streak_current dates today → today - (i : ℤ) ∈ dates) ∧
    today - (get_streak_current dates today : ℤ) ∉ dates ∧
    (today ∈ dates →
      calculate_streaks_current dates today = get_streak_current dates today) ∧
    (today ∉ dates → today - 1 ∈ dates →
      0 < calculate_streaks_current dates today) := by
  refine ⟨?_, ?_, ?_, ?_, ?_⟩
  · intro h
    exact countBack_of_not_mem dates today h
  · intro i hi
    exact countBack_mem dates today i hi
  · exact countBack_stop dates today
  · intro h
    unfold calculate_streaks_current get_streak_current
    rw [if_pos (Or.inl h), countBack_of_mem dates today h]
    omega
  · intro h hy
    unfold calculate_streaks_current
    rw [if_pos (Or.inr hy)]
    omega

/-- Witness for C3 at `dates = {-1}`, `today = 0`: the strict walk returns 0
while the grace-day variant returns a positive streak. -/

theorem streak_current_strict_vs_grace_witness :
    get_streak_current ({-1} : Finset ℤ) 0 = 0 ∧
    0 < calculate_streaks_current ({-1} : Finset ℤ) 0 :=
  ⟨(streak_current_strict_vs_grace ({-1} : Finset ℤ) 0).1 (by decide),
   (streak_current_strict_vs_grace ({-1} : Finset ℤ) 0).2.2.2.2
     (by decide) (by decide)⟩

/-- Counterexample to claim C3 as stated: `_calculate_streaks` does not
return 0 when `today` itself has no session — with study dates `{-1}` and
reference date 0 it returns 2. -/

theorem calculate_streaks_no_grace_counterexample :
    (0 : ℤ) ∉ ({-1} : Finset ℤ) ∧
    calculate_streaks_current ({-1} : Finset ℤ) 0 = 2 := by
  constructor
  · decide
  · decide

/-- Claim C4 (amended): for both streak computations the current streak is
at most the longest streak plus one (for `get_study_streak_data` under its
91-day fetch window `[today - 90, today]`). -/

theorem current_streak_le_longest_succ (dates : Finset ℤ) (today : ℤ) :
    calculate_streaks_current dates today
      ≤ calculate_streaks_longest dates + 1 ∧
    (dates ⊆ Finset.Icc (today - 90) today →
      get_streak_current dates today ≤ get_streak_longest dates today + 1) :=
  ⟨calculate_streaks_current_le dates today,
   get_streak_current_le_longest_succ dates today⟩

/-- Witness for C4 at `dates = ∅`, `today = 0`. -/

theorem current_streak_le_longest_succ_witness :
    calculate_streaks_current (∅ : Finset ℤ) 0
      ≤ calculate_streaks_longest (∅ : Finset ℤ) + 1 ∧
    get_streak_current (∅ : Finset ℤ) 0
      ≤ get_streak_longest (∅ : Finset ℤ) 0 + 1 :=
  ⟨(current_streak_le_longest_succ (∅ : Finset ℤ) 0).1,
   (current_streak_le_longest_succ (∅ : Finset ℤ) 0).2
     (Finset.empty_subset _)⟩

/-- Counterexample to claim C4 as stated: with study dates `{-1}` and
reference date 0, `_calculate_streaks` returns current streak 2 but longest
streak 1. -/

theorem current_streak_gt_longest_counterexample :
    calculate_streaks_longest ({-1} : Finset ℤ)
      < calculate_streaks_current ({-1} : Finset ℤ) 0 := by
  have h1 : calculate_streaks_current ({-1} : Finset ℤ) 0 = 2 := by decide
  have h2 : calculate_streaks_longest ({-1} : Finset ℤ) = 1 := by
    simp [calculate_streaks_longest, Finset.sort_singleton,
      calculate_streaks_longest_aux]
  omega

/-- Claim C10: `get_study_streak_data` only considers study dates inside
its fetch window `[today - 90, today]`; under that window the current
streak is at most 91 and the longest streak at most 90, and both bounds
are attained when every day of the window is a study date. -/

theorem get_study_streak_window_bounds (dates : Finset ℤ) (today : ℤ)
    (hsub : dates ⊆ Finset.Icc (today - 90) today) :
    get_streak_current dates today ≤ 91 ∧
    get_streak_longest dates today ≤ 90 ∧
    get_streak_current (Finset.Icc (today - 90) today) today = 91 ∧
    get_streak_longest (Finset.Icc (today - 90) today) today = 90 :=
  ⟨le_trans (countBack_le_card dates today)
      (card_le_91_of_subset_window dates today hsub),
   get_streak_longest_le dates today,
   get_streak_current_full_window today,
   get_streak_longest_full_window today⟩

/-- Witness for C10 at `dates = ∅`, `today = 0`. -/

theorem get_study_streak_window_bounds_witness :
    get_streak_current (∅ : Finset ℤ) 0 ≤ 91 ∧
    get_streak_longest (∅ : Finset ℤ) 0 ≤ 90 :=
  ⟨(get_study_streak_window_bounds (∅ : Finset ℤ) 0 (Finset.empty_subset _)).1,
   (get_study_streak_window_bounds (∅ : Finset ℤ) 0 (Finset.empty_subset _)).2.1⟩

/-! ### Weekly totals (C1) -/

theorem daysRange_nodup (first last : ℤ) : (daysRange first last).Nodup := by
  unfold daysRange
  exact List.Nodup.map
    (f := fun i : ℕ => first + (i : ℤ))
    (fun a b hab => by simp only at hab; omega)
    (List.nodup_range _)

theorem sum_map_add {α : Type} (l : List α) (f g : α → ℕ) :
    (l.map (fun x => f x + g x)).sum = (l.map f).sum + (l.map g).sum := by
  induction l with
  | nil => simp
  | cons x rest ih => simp [ih]; omega

theorem sum_if_mem (x : StudySession) (days : List ℤ) (hnd : days.Nodup) :
    (days.map (fun d => if x.date = d then x.duration else 0)).sum
      = if x.date ∈ days then x.duration else 0 := by
  induction days with
  | nil => simp
  | cons d rest ih =>
    have hnd' : rest.Nodup := (List.nodup_cons.mp hnd).2
    simp only [List.map_cons, List.sum_cons, ih hnd', List.mem_cons]
    by_cases hxd : x.date = d
    · have hdnotin : d ∉ rest := by
        rw [← hxd]
        exact hxd ▸ (List.nodup_cons.mp hnd).1
      simp [hxd, hdnotin]
    · simp [hxd]

theorem totalDuration_filter_cons (p : StudySession → Bool)
    (x : StudySession) (rest : List StudySession) :
    totalDuration ((x :: rest).filter p)
      = (if p x then x.duration else 0) + totalDuration (rest.filter p) := by
  by_cases hp : p x
  · simp [List.filter_cons, hp, totalDuration]
  · simp [List.filter_cons, hp, totalDuration]

/-- Summing the per-day totals over a duplicate-free day list equals the
total over the sessions whose date lies in that list. -/

theorem daily_totals_sum (sessions : List StudySession) (days : List ℤ)
    (hnd : days.Nodup) :
    (days.map (fun d =>
        totalDuration (sessions.filter (fun s => s.date = d)))).sum
      = totalDuration (sessions.filter (fun s => s.date ∈ days)) := by
  induction sessions with
  | nil => simp [totalDuration]
  | cons x rest ih =>
    have hstep : ∀ d : ℤ,
        totalDuration ((x :: rest).filter (fun s => s.date = d))
          = (if x.date = d then x.duration else 0)
            + totalDuration (rest.filter (fun s => s.date = d)) := by
      intro d
      simpa using totalDuration_filter_cons (fun s => s.date = d) x rest
    calc (days.map (fun d =>
            totalDuration ((x :: rest).filter (fun s => s.date = d)))).sum
        = (days.map (fun d => (if x.date = d then x.duration else 0)
            + totalDuration (rest.filter (fun s => s.date = d)))).sum := by
          congr 1
          exact List.map_congr_left (fun d _ => hstep d)
      _ = (if x.date ∈ days then x.duration else 0)
            + (days.map (fun d =>
                totalDuration (rest.filter (fun s => s.date = d)))).sum := by
          rw [sum_map_add days (fun d => if x.date = d then x.duration else 0)
            (fun d => totalDuration (rest.filter (fun s => s.date = d)))]
          rw [sum_if_mem x days hnd]
      _ = (if x.date ∈ days then x.duration else 0)
            + totalDuration (rest.filter (fun s => s.date ∈ days)) := by
          rw [ih]
      _ = totalDuration ((x :: rest).filter (fun s => s.date ∈ days)) := by
          have := totalDuration_filter_cons (fun s => s.date ∈ days) x rest
          simp only [this]
          by_cases hx : x.date ∈ days
      <;> simp [hx]

/-- Claim C1: the weekly total of `generate_weekly_analytics` — the sum of
all fetched session durations — equals the sum of `total_duration` over the
seven `DailySummary` values it emits, given that every fetched session's
date lies in the requested week (guaranteed by the date-range fetch filter).
`_calculate_weekly_stats` accumulates its weekly total as exactly this sum
of per-day totals, so the identity is structural on that code path. -/

theorem weekly_total_eq_sum_daily (sessions : List StudySession)
    (week_start : ℤ)
    (h : ∀ s ∈ sessions, s.date ∈ daysRange week_start (week_start + 6)) :
    ((calculate_daily_summaries sessions week_start (week_start + 6)).map
        (fun d => d.total_duration)).sum = totalDuration sessions := by
  unfold calculate_daily_summaries
  rw [List.map_map]
  have hcomp : ((daysRange week_start (week_start + 6)).map
      (fun d => totalDuration (sessions.filter (fun s => s.date = d)))).sum
      = totalDuration (sessions.filter
          (fun s => s.date ∈ daysRange week_start (week_start + 6))) :=
    daily_totals_sum sessions _ (daysRange_nodup _ _)
  have hfilter : sessions.filter
      (fun s => s.date ∈ daysRange week_start (week_start + 6)) = sessions := by
    apply List.filter_eq_self.mpr
    intro s hs
    simpa using h s hs
  rw [hfilter] at hcomp
  exact hcomp

/-- Witness for C1 at a concrete two-session week. -/

theorem weekly_total_eq_sum_daily_witness :
    ((calculate_daily_summaries
        [⟨0, none, 30, "math"⟩, ⟨3, some 9, 45, "cs"⟩] 0 (0 + 6)).map
      (fun d => d.total_duration)).sum
      = totalDuration [⟨0, none, 30, "math"⟩, ⟨3, some 9, 45, "cs"⟩] :=
  weekly_total_eq_sum_daily
    [⟨0, none, 30, "math"⟩, ⟨3, some 9, 45, "cs"⟩] 0 (by decide)

theorem lookupHour_bump (acc : List (ℕ × ℕ)) (h v k : ℕ) :
    lookupHour (bumpHour acc h v) k
      = lookupHour acc k + (if h = k then v else 0) := by
  induction acc with
  | nil =>
    by_cases hk : h = k
    · simp [bumpHour, lookupHour, hk]
    · simp [bumpHour, lookupHour, hk, fun hc => hk hc]
  | cons p rest ih =>
    obtain ⟨pk, pv⟩ := p
    by_cases hph : pk = h
    · subst hph
      by_cases hk : pk = k
      · simp [bumpHour, lookupHour, hk]
      · simp [bumpHour, lookupHour, hk]
    · by_cases hk : pk = k
      · subst hk
        have : ¬ h = pk := fun hc => hph hc.symm
        simp [bumpHour, lookupHour, hph, this]
      · simp [bumpHour, lookupHour, hph, hk, ih]

theorem mem_bumpHour (acc : List (ℕ × ℕ)) (h v : ℕ) (p : ℕ × ℕ)
    (hp : p ∈ bumpHour acc h v) : p.1 = h ∨ p ∈ acc := by
  induction acc with
  | nil =>
    simp only [bumpHour, List.mem_singleton] at hp
    subst hp
    exact Or.inl rfl
  | cons q rest ih =>
    obtain ⟨qk, qv⟩ := q
    by_cases hq : qk = h
    · simp only [bumpHour, hq, if_true, List.mem_cons] at hp
      rcases hp with rfl | hp
      · exact Or.inl rfl
      · exact Or.inr (List.mem_cons_of_mem _ hp)
    · simp only [bumpHour, hq, if_false, List.mem_cons] at hp
      rcases hp with rfl | hp
      · exact Or.inr (List.mem_cons_self _ _)
      · rcases ih hp with h1 | h1
        · exact Or.inl h1
        · exact Or.inr (List.mem_cons_of_mem _ h1)

theorem hourKeys_bump (acc : List (ℕ × ℕ)) (h v : ℕ) :
    hourKeys (bumpHour acc h v)
      = if h ∈ hourKeys acc then hourKeys acc else hourKeys acc ++ [h] := by
  induction acc with
  | nil => simp [bumpHour, hourKeys]
  | cons q rest ih =>
    obtain ⟨qk, qv⟩ := q
    by_cases hq : qk = h
    · simp [bumpHour, hq, hourKeys]
    · have : ¬ h = qk := fun hc => hq hc.symm
      simp only [bumpHour, hq, if_false, hourKeys, List.map_cons,
        List.mem_cons, this, false_or]
      rw [show List.map (fun p : ℕ × ℕ => p.1) (bumpHour rest h v)
          = hourKeys (bumpHour rest h v) from rfl, ih]
      unfold hourKeys
      split
      · rfl
      · rfl

theorem hourKeys_bump_nodup (acc : List (ℕ × ℕ)) (h v : ℕ)
    (hnd : (hourKeys acc).Nodup) : (hourKeys (bumpHour acc h v)).Nodup := by
  rw [hourKeys_bump]
  split
  · exact hnd
  · rename_i hnot
    simpa [List.nodup_append] using ⟨hnd, hnot⟩

theorem mem_lookupHour (acc : List (ℕ × ℕ)) (hnd : (hourKeys acc).Nodup)
    (p : ℕ × ℕ) (hp : p ∈ acc) : p.2 = lookupHour acc p.1 := by
  induction acc with
  | nil => simp at hp
  | cons q rest ih =>
    obtain ⟨qk, qv⟩ := q
    simp only [hourKeys, List.map_cons, List.nodup_cons] at hnd
    rcases List.mem_cons.mp hp with rfl | hp'
    · simp [lookupHour]
    · have hne : ¬ qk = p.1 := by
        intro hc
        exact hnd.1 (hc ▸ List.mem_map_of_mem (fun r => r.1) hp')
      simp only [lookupHour, hne, if_false]
      exact ih hnd.2 hp'

theorem hour_total_cons (s : StudySession) (rest : List StudySession)
    (h : ℕ) :
    hour_total (s :: rest) h
      = (if s.start_hour = some h then s.duration else 0)
        + hour_total rest h := by
  unfold hour_total
  simpa using totalDuration_filter_cons (fun t => t.start_hour = some h) s rest

theorem hourly_foldl_inv :
    ∀ (sessions : List StudySession) (acc : List (ℕ × ℕ)),
      (hourKeys acc).Nodup →
      (hourKeys (sessions.foldl (fun acc s =>
          match s.start_hour with
          | some h => bumpHour acc h s.duration
          | none => acc) acc)).Nodup ∧
      ∀ p ∈ sessions.foldl (fun acc s =>
          match s.start_hour with
          | some h => bumpHour acc h s.duration
          | none => acc) acc,
        p.2 = lookupHour acc p.1 + hour_total sessions p.1 := by
  intro sessions
  induction sessions with
  | nil =>
    intro acc hnd
    refine ⟨hnd, ?_⟩
    intro p hp
    simp only [List.foldl_nil] at hp
    have := mem_lookupHour acc hnd p hp
    simp [this, hour_total, totalDuration]
  | cons s rest ih =>
    intro acc hnd
    rcases hs : s.start_hour with _ | h
    · -- no start_time: the session is skipped
      have hstep : (s :: rest).foldl (fun acc s =>
          match s.start_hour with
          | some h => bumpHour acc h s.duration
          | none => acc) acc
          = rest.foldl (fun acc s =>
            match s.start_hour with
            | some h => bumpHour acc h s.duration
            | none => acc) acc := by
        simp [List.foldl_cons, hs]
      obtain ⟨ihnd, ihval⟩ := ih acc hnd
      refine ⟨by rwa [hstep], ?_⟩
      intro p hp
      rw [hstep] at hp
      rw [hour_total_cons, hs]
      simpa using ihval p hp
    · -- start hour h: accumulate into the hour bucket
      have hstep : (s :: rest).foldl (fun acc s =>
          match s.start_hour with
          | some h => bumpHour acc h s.duration
          | none => acc) acc
          = rest.foldl (fun acc s =>
            match s.start_hour with
            | some h => bumpHour acc h s.duration
            | none => acc) (bumpHour acc h s.duration) := by
        simp [List.foldl_cons, hs]
      obtain ⟨ihnd, ihval⟩ :=
        ih (bumpHour acc h s.duration) (hourKeys_bump_nodup acc h s.duration hnd)
      refine ⟨by rwa [hstep], ?_⟩
      intro p hp
      rw [hstep] at hp
      have hval := ihval p hp
      rw [lookupHour_bump] at hval
      rw [hour_total_cons, hs]
      by_cases hph : h = p.1
      · simp only [hph, if_true] at hval
        simp only [hph, if_true]
        omega
      · have : ¬ (some h = some p.1) := fun hc => hph (Option.some.inj hc)
        simp only [hph, if_false] at hval
        simp only [this, if_false]
        omega

/-- Every entry of the hour map carries the total duration of the sessions
starting in that hour. -/

theorem hourly_productivity_val (sessions : List StudySession) :
    ∀ p ∈ hourly_productivity sessions, p.2 = hour_total sessions p.1 := by
  intro p hp
  have h := (hourly_foldl_inv sessions [] (by simp [hourKeys])).2 p hp
  simpa [lookupHour] using h

/-- Claim C6 (amended): `peak_hours` contains at most 3 hours, ordered
descending (non-strictly) by the summed duration of sessions starting in
that hour, with sessions lacking a `start_time` excluded; equal-duration
hours keep the hour map's insertion order (first occurrence in the session
list) — the stable-sort conjunct — rather than ascending hour value. -/

theorem peak_hours_spec (sessions : List StudySession) :
    (peak_hours sessions).length ≤ 3 ∧
    (peak_hours sessions).Pairwise
      (fun h1 h2 => hour_total sessions h2 ≤ hour_total sessions h1) ∧
    (∀ p q : ℕ × ℕ, [p, q].Sublist (hourly_productivity sessions) →
      q.2 ≤ p.2 →
      [p, q].Sublist ((hourly_productivity sessions).mergeSort
        (fun a b => b.2 ≤ a.2))) := by
  have htrans : ∀ a b c : ℕ × ℕ,
      (fun a b : ℕ × ℕ => (decide (b.2 ≤ a.2))) a b →
      (fun a b : ℕ × ℕ => (decide (b.2 ≤ a.2))) b c →
      (fun a b : ℕ × ℕ => (decide (b.2 ≤ a.2))) a c := by
    intro a b c hab hbc
    simp only [decide_eq_true_eq] at hab hbc ⊢
    omega
  have htotal : ∀ a b : ℕ × ℕ,
      ((fun a b : ℕ × ℕ => (decide (b.2 ≤ a.2))) a b
        || (fun a b : ℕ × ℕ => (decide (b.2 ≤ a.2))) b a) := by
    intro a b
    simp only [Bool.or_eq_true, decide_eq_true_eq]
    omega
  refine ⟨?_, ?_, ?_⟩
  · simp only [peak_hours, List.length_map]
    have := List.length_take_le 3 ((hourly_productivity sessions).mergeSort
      (fun a b => b.2 ≤ a.2))
    omega
  · have hsort := List.sorted_mergeSort htrans htotal
      (hourly_productivity sessions)
    have htake : (((hourly_productivity sessions).mergeSort
        (fun a b => b.2 ≤ a.2)).take 3).Pairwise
        (fun a b : ℕ × ℕ => (decide (b.2 ≤ a.2)) = true) :=
      List.Pairwise.sublist (List.take_sublist 3 _) hsort
    unfold peak_hours
    rw [List.pairwise_map]
    refine htake.imp_of_mem ?_
    intro p q hp hq hle
    have hpm : p ∈ hourly_productivity sessions :=
      List.mem_mergeSort.mp (List.mem_of_mem_take hp)
    have hqm : q ∈ hourly_productivity sessions :=
      List.mem_mergeSort.mp (List.mem_of_mem_take hq)
    have hpv := hourly_productivity_val sessions p hpm
    have hqv := hourly_productivity_val sessions q hqm
    simp only [decide_eq_true_eq] at hle
    rw [← hpv, ← hqv]
    exact hle
  · intro p q hsub hle
    exact List.pair_sublist_mergeSort htrans htotal (by simpa) hsub

/-- Counterexample to claim C6 as stated: two sessions of equal duration at
hours 5 and 2 (in that order) yield `peak_hours = [5, 2]`; the ascending
tie-break demanded by the claim would give `[2, 5]`. -/

theorem peak_hours_tie_counterexample :
    peak_hours [⟨0, some 5, 10, "x"⟩, ⟨0, some 2, 10, "x"⟩] = [5, 2] ∧
    ([5, 2] : List ℕ) ≠ [2, 5] := by
  constructor
  · have h1 : hourly_productivity [⟨0, some 5, 10, "x"⟩, ⟨0, some 2, 10, "x"⟩]
        = [(5, 10), (2, 10)] := by decide
    have h2 : (([(5, 10), (2, 10)] : List (ℕ × ℕ)).mergeSort
        (fun a b => b.2 ≤ a.2)) = [(5, 10), (2, 10)] :=
      List.mergeSort_of_sorted (by simp)
    simp [peak_hours, h1, h2]
  · decide

theorem round1_zero : round1 0 = 0 := by norm_num [round1]

/-- Claim C7 (amended): the comparison statistics satisfy
`duration_change = current_total - previous_total` in exact integer
arithmetic, `session_change = current_count - previous_count`, the
percentage is 0 when the previous total is 0 and otherwise equals
`duration_change / previous_total * 100` rounded to one decimal place
(Python `round(x, 1)`), and the trend label is `"improving"`, `"declining"`
or `"stable"` exactly according to the sign of `duration_change`. -/

theorem week_comparison_spec (current previous : List StudySession) :
    (calculate_week_comparison current previous).duration_change
      = (totalDuration current : ℤ) - (totalDuration previous : ℤ) ∧
    (totalDuration previous = 0 →
      (calculate_week_comparison current previous).duration_change_percentage
        = 0) ∧
    (0 < totalDuration previous →
      (calculate_week_comparison current previous).duration_change_percentage
        = round1 ((((totalDuration current : ℤ)
            - (totalDuration previous : ℤ) : ℤ) : ℚ)
            / ((totalDuration previous : ℕ) : ℚ) * 100)) ∧
    (calculate_week_comparison current previous).session_change
      = (current.length : ℤ) - (previous.length : ℤ) ∧
    ((calculate_week_comparison current previous).trend = "improving"
      ↔ (totalDuration previous : ℤ) < (totalDuration current : ℤ)) ∧
    ((calculate_week_comparison current previous).trend = "declining"
      ↔ (totalDuration current : ℤ) < (totalDuration previous : ℤ)) ∧
    ((calculate_week_comparison current previous).trend = "stable"
      ↔ (totalDuration current : ℤ) = (totalDuration previous : ℤ)) := by
  refine ⟨rfl, ?_, ?_, rfl, ?_, ?_, ?_⟩
  · intro h
    simp only [calculate_week_comparison, h]
    norm_num [round1]
  · intro h
    have h' : (0 : ℤ) < (totalDuration previous : ℤ) := by exact_mod_cast h
    simp only [calculate_week_comparison, if_pos h']
    congr 1
  · simp only [calculate_week_comparison]
    split
    · rename_i h
      simp only [true_iff]
      omega
    · rename_i h
      split
      · rename_i h2
        constructor
        · intro hc
          exact absurd hc (by decide)
        · intro hc
          omega
      · rename_i h2
        constructor
        · intro hc
          exact absurd hc (by decide)
        · intro hc
          omega
  · simp only [calculate_week_comparison]
    split
    · rename_i h
      constructor
      · intro hc
        exact absurd hc (by decide)
      · intro hc
        omega
    · rename_i h
      split
      · rename_i h2
        simp only [true_iff]
        omega
      · rename_i h2
        constructor
        · intro hc
          exact absurd hc (by decide)
        · intro hc
          omega
  · simp only [calculate_week_comparison]
    split
    · rename_i h
      constructor
      · intro hc
        exact absurd hc (by decide)
      · intro hc
        omega
    · rename_i h
      split
      · rename_i h2
        constructor
        · intro hc
          exact absurd hc (by decide)
        · intro hc
          omega
      · rename_i h2
        simp only [true_iff]
        omega

/-- Witness for C7: the zero guard at an empty previous period and the
rounded percentage at totals 2 and 1. -/

theorem week_comparison_spec_witness :
    (calculate_week_comparison [⟨0, none, 2, "a"⟩] []).duration_change_percentage
      = 0 ∧
    (calculate_week_comparison [⟨0, none, 2, "a"⟩]
        [⟨0, none, 1, "b"⟩]).duration_change_percentage
      = round1 ((((totalDuration [⟨0, none, 2, "a"⟩] : ℤ)
          - (totalDuration [⟨0, none, 1, "b"⟩] : ℤ) : ℤ) : ℚ)
          / ((totalDuration [⟨0, none, 1, "b"⟩] : ℕ) : ℚ) * 100) :=
  ⟨(week_comparison_spec [⟨0, none, 2, "a"⟩] []).2.1 (by decide),
   (week_comparison_spec [⟨0, none, 2, "a"⟩] [⟨0, none, 1, "b"⟩]).2.2.1
     (by decide)⟩

/-- Counterexample to claim C7 as stated: with totals 1 (current) and 3
(previous) the stored percentage is the rounded `-66.7`, not the exact
`-200/3` the claim's formula gives. -/

theorem week_comparison_pct_counterexample :
    (calculate_week_comparison [⟨0, none, 1, "x"⟩]
        [⟨0, none, 3, "x"⟩]).duration_change_percentage
      ≠ (((1 : ℚ) - 3) / 3) * 100 := by
  have h : (calculate_week_comparison [⟨0, none, 1, "x"⟩]
      [⟨0, none, 3, "x"⟩]).duration_change_percentage
      = round1 ((((1 : ℤ) - 3 : ℤ) : ℚ) / 3 * 100) := by
    simp [calculate_week_comparison, totalDuration]
  rw [h]
  norm_num [round1]

/-- Claim C2: `_calculate_study_consistency` returns exactly the claimed
formula (the code's `avg > 0` guard on `cv` never changes the value, since
the nonzero durations have positive mean whenever more than one exists),
the score always lies in `[0, 100]`, and it is 0 for an empty period. -/

theorem study_consistency_spec (ds : List DailySummary) :
    calculate_study_consistency ds = spec_study_consistency ds ∧
    0 ≤ calculate_study_consistency ds ∧
    calculate_study_consistency ds ≤ 100 ∧
    (ds = [] → calculate_study_consistency ds = 0) := by
  have hbonus : ∀ base bonus : ℝ, 0 ≤ base → 0 ≤ bonus →
      0 ≤ min 100 (base + bonus) ∧ min 100 (base + bonus) ≤ 100 := by
    intro base bonus hb ho
    constructor
    · apply le_min
      · norm_num
      · linarith
    · exact min_le_left _ _
  by_cases hN : ds.length = 0
  · have hnil : ds = [] := List.length_eq_zero.mp hN
    subst hnil
    refine ⟨?_, ?_, ?_, ?_⟩ <;>
      simp [calculate_study_consistency, spec_study_consistency]
  · -- nonempty period
    set nonzero := (ds.filter (fun s => 0 < s.total_duration)).map
      (fun s => (s.total_duration : ℝ)) with hnz
    have hpos : ∀ x ∈ nonzero, (0 : ℝ) < x := by
      intro x hx
      rw [hnz] at hx
      obtain ⟨s, hs, rfl⟩ := List.mem_map.mp hx
      have := List.of_mem_filter hs
      simp only [decide_eq_true_eq] at this
      exact_mod_cast this
    have heqbonus :
        (if 1 < nonzero.length then
          let avg := nonzero.sum / (nonzero.length : ℝ)
          let variance := ((nonzero.map (fun d => (d - avg) ^ 2)).sum)
            / (nonzero.length : ℝ)
          let cv := if 0 < avg then Real.sqrt variance / avg else 0
          if cv < 0.5 then max 0 ((0.5 - cv) * 20) else 0
        else 0)
        = (if 1 < nonzero.length ∧
              Real.sqrt (((nonzero.map (fun d =>
                  (d - nonzero.sum / (nonzero.length : ℝ)) ^ 2)).sum)
                / (nonzero.length : ℝ))
              / (nonzero.sum / (nonzero.length : ℝ)) < 0.5 then
            max 0 ((0.5 - Real.sqrt (((nonzero.map (fun d =>
                (d - nonzero.sum / (nonzero.length : ℝ)) ^ 2)).sum)
              / (nonzero.length : ℝ))
              / (nonzero.sum / (nonzero.length : ℝ))) * 20)
          else 0) := by
      by_cases hlen : 1 < nonzero.length
      · have hne : nonzero ≠ [] := by
          intro hc
          rw [hc] at hlen
          simp at hlen
        have hsum : 0 < nonzero.sum := List.sum_pos nonzero hpos hne
        have havg : 0 < nonzero.sum / (nonzero.length : ℝ) := by
          apply div_pos hsum
          have hl0 : 0 < nonzero.length := by omega
          exact_mod_cast hl0
        simp only [hlen, if_pos havg, true_and, if_true]
      · simp [hlen]
    have hb0 : (0 : ℝ) ≤ ((((ds.filter
        (fun s => 0 < s.total_duration)).length : ℕ) : ℝ) / (ds.length : ℝ))
        * 100 := by positivity
    have ho0 : (0 : ℝ) ≤ (if 1 < nonzero.length then
        let avg := nonzero.sum / (nonzero.length : ℝ)
        let variance := ((nonzero.map (fun d => (d - avg) ^ 2)).sum)
          / (nonzero.length : ℝ)
        let cv := if 0 < avg then Real.sqrt variance / avg else 0
        if cv < 0.5 then max 0 ((0.5 - cv) * 20) else 0
      else 0) := by
      have hmax : ∀ c : ℝ,
          (0 : ℝ) ≤ if c < 0.5 then max 0 ((0.5 - c) * 20) else 0 := by
        intro c
        split
        · exact le_max_left _ _
        · exact le_refl _
      by_cases hlen : 1 < nonzero.length
      · simp only [hlen, if_true]
        exact hmax _
      · simp [hlen]
    have hcalc : calculate_study_consistency ds
        = min 100 (((((ds.filter
            (fun s => 0 < s.total_duration)).length : ℕ) : ℝ)
              / (ds.length : ℝ)) * 100
          + (if 1 < nonzero.length then
              let avg := nonzero.sum / (nonzero.length : ℝ)
              let variance := ((nonzero.map (fun d => (d - avg) ^ 2)).sum)
                / (nonzero.length : ℝ)
              let cv := if 0 < avg then Real.sqrt variance / avg else 0
              if cv < 0.5 then max 0 ((0.5 - cv) * 20) else 0
            else 0)) := by
      simp only [calculate_study_consistency, hN, if_false, hnz]
    refine ⟨?_, ?_, ?_, ?_⟩
    · rw [hcalc]
      simp only [spec_study_consistency, hN, if_false, hnz]
      rw [heqbonus]
    · rw [hcalc]
      exact (hbonus _ _ hb0 ho0).1
    · rw [hcalc]
      exact (hbonus _ _ hb0 ho0).2
    · intro hc
      subst hc
      simp at hN

/-- Witness for C2: the empty-input clause applied at `ds = []`. -/

theorem study_consistency_spec_witness :
    calculate_study_consistency [] = 0 :=
  (study_consistency_spec []).2.2.2 rfl

/-- Claim C8: on the empty session list every aggregation — daily
summaries, weekly total, consistency score, top subjects, productivity
metrics, comparison stats — yields all-zero numeric aggregates, every
division being guarded; all embedded functions are total, so no exception
can be raised. -/

theorem empty_input_all_zero (week_start : ℤ) :
    (∀ s ∈ calculate_daily_summaries [] week_start (week_start + 6),
      s.total_duration = 0 ∧ s.session_count = 0
        ∧ s.average_session_duration = 0) ∧
    totalDuration [] = 0 ∧
    calculate_study_consistency
      (calculate_daily_summaries [] week_start (week_start + 6)) = 0 ∧
    calculate_top_subjects [] = [] ∧
    peak_hours [] = [] ∧
    optimal_session_length [] = 0 ∧
    focus_score [] = 0 ∧
    (calculate_week_comparison [] []).duration_change = 0 ∧
    (calculate_week_comparison [] []).duration_change_percentage = 0 ∧
    (calculate_week_comparison [] []).session_change = 0 ∧
    (calculate_week_comparison [] []).trend = "stable" := by
  have hdaily : ∀ s ∈ calculate_daily_summaries [] week_start (week_start + 6),
      s.total_duration = 0 ∧ s.session_count = 0
        ∧ s.average_session_duration = 0 := by
    intro s hs
    simp only [calculate_daily_summaries, List.mem_map] at hs
    obtain ⟨d, _, rfl⟩ := hs
    refine ⟨by simp [totalDuration], by simp, by simp⟩
  refine ⟨hdaily, rfl, ?_, ?_, ?_, ?_, ?_, ?_, ?_, ?_, ?_⟩
  · -- consistency over an all-zero 7-day week is 0
    have hfilter : (calculate_daily_summaries [] week_start
        (week_start + 6)).filter (fun s => 0 < s.total_duration) = [] := by
      rw [List.filter_eq_nil_iff]
      intro s hs
      have := (hdaily s hs).1
      simp [this]
    have hlen : (calculate_daily_summaries [] week_start
        (week_start + 6)).length = 7 := by
      simp only [calculate_daily_summaries, List.length_map, daysRange]
      rw [List.length_range, show week_start + 6 - week_start + 1 = 7 by ring]
      rfl
    unfold calculate_study_consistency
    rw [hfilter, hlen]
    norm_num
  · simp [calculate_top_subjects, subject_data, List.mergeSort_nil]
  · simp [peak_hours, hourly_productivity, List.mergeSort_nil]
  · simp [optimal_session_length, List.mergeSort_nil]
  · simp [focus_score]
  · rfl
  · simp only [calculate_week_comparison, totalDuration, List.map_nil,
      List.sum_nil, Nat.cast_zero, sub_zero]
    norm_num [round1]
  · rfl
  · simp [calculate_week_comparison, totalDuration]

/-- Witness for C8: the all-zero facts applied at week start 0, including
the membership clause at the concrete day-0 summary. -/

theorem empty_input_all_zero_witness :
    calculate_study_consistency (calculate_daily_summaries [] 0 (0 + 6)) = 0 ∧
    (⟨0, 0, 0, [], 0⟩ : DailySummary).total_duration = 0 :=
  ⟨(empty_input_all_zero 0).2.2.1,
   ((empty_input_all_zero 0).1 ⟨0, 0, 0, [], 0⟩ (by decide)).1⟩

/-- Claim C5 (code-bug evidence): with today = 2026-10-12 and
`months_back = 2`, `generate_monthly_trends` emits buckets for 2026-10 and
2026-08 — September is skipped, because stepping back `32 * i` days from
the first of the month always crosses two month boundaries at `i = 1` —
whereas the claim requires the two consecutive months 2026-09 and 2026-10. -/

theorem monthly_trends_skip_month :
    generate_monthly_trends_months 2026 10 12 2 = [(2026, 10), (2026, 8)] ∧
    (2026, 9) ∉ generate_monthly_trends_months 2026 10 12 2 := by
  constructor
  · decide
  · decide

/-- Claim C9 (code-bug evidence): both fetch-layer functions convert a
storage failure into a successful empty result — an empty session list and
an all-zero streak record — instead of propagating a distinct
`DataUnavailable` failure as the claim requires. -/

theorem fetch_failure_masked (e : DBError) (today : ℤ) :
    get_study_sessions_by_date_range (Except.error e) = [] ∧
    get_study_streak_data (Except.error e) today = ⟨0, 0, 0⟩ :=
  ⟨rfl, rfl⟩

/-- Witness for C6: the stability conjunct applied at the concrete
two-session tie input. -/
theorem peak_hours_spec_witness :
    (peak_hours [⟨0, some 5, 10, "x"⟩, ⟨0, some 2, 10, "x"⟩]).length ≤ 3 ∧
    [((5 : ℕ), (10 : ℕ)), (2, 10)].Sublist
      ((hourly_productivity
          [⟨0, some 5, 10, "x"⟩, ⟨0, some 2, 10, "x"⟩]).mergeSort
        (fun a b => b.2 ≤ a.2)) :=
  ⟨(peak_hours_spec [⟨0, some 5, 10, "x"⟩, ⟨0, some 2, 10, "x"⟩]).1,
   (peak_hours_spec [⟨0, some 5, 10, "x"⟩, ⟨0, some 2, 10, "x"⟩]).2.2
     (5, 10) (2, 10) (by decide) (by decide)⟩
